import Mathlib

/-!
# Verification of the instrumentation/logging subsystem

Shallow embedding of the core of the repository: the Supabase logger
(`src/app/lib/supabase/environment.ts`), the browser fetch tap
(`src/instrumentation.ts`) and the trace-ingest route
(`src/app/api/traces/route.ts`), together with proofs settling the
specification claims about them.

JavaScript values that flow through the logger (log details, thrown
errors, JSON bodies) are modelled by the inductive `JsValue`.  Machine
floating point numbers are modelled by `ℚ` (NaN is not modelled; the
claims under study never exercise it).  `undefined` and `null` are
distinct constructors, as JavaScript distinguishes them.
-/

set_option autoImplicit false

namespace NextApp

/-- Model of a JavaScript runtime value.  `errObj` models an `Error`
instance: its `message`, its optional `stack`, and its *enumerable own*
properties (for a plain `new Error(msg)` these are empty; `message` and
`stack` are own but non-enumerable in JS). -/
inductive JsValue where
  | undefV : JsValue
  | nullV : JsValue
  | bool (b : Bool) : JsValue
  | num (q : ℚ) : JsValue
  | str (s : String) : JsValue
  | arr (elems : List JsValue) : JsValue
  | obj (fields : List (String × JsValue)) : JsValue
  | errObj (message : String) (stack : Option String)
      (props : List (String × JsValue)) : JsValue

/-- JavaScript truthiness for the modelled values: `undefined`, `null`,
`false`, `0` and `""` are falsy; objects (arrays and errors included)
are always truthy. -/
def jsTruthy : JsValue → Bool
  | .undefV => false
  | .nullV => false
  | .bool b => b
  | .num q => decide (q ≠ 0)
  | .str s => decide (s ≠ "")
  | .arr _ => true
  | .obj _ => true
  | .errObj _ _ _ => true

/-- Test `charsStart pat s`: `pat` is a leading segment of `s`
(character-list version of `String.prototype.startsWith`). -/
def charsStart : List Char → List Char → Bool
  | [], _ => true
  | _ :: _, [] => false
  | a :: as, b :: bs => a == b && charsStart as bs

/-- Test `charsHasSub sub s`: `sub` occurs contiguously inside `s`. -/
def charsHasSub (sub : List Char) : List Char → Bool
  | [] => sub.isEmpty
  | b :: bs => charsStart sub (b :: bs) || charsHasSub sub bs

/-- Model of the case-sensitive JavaScript `String.prototype.includes`. -/
def jsIncludes (s sub : String) : Bool :=
  charsHasSub sub.toList s.toList

/-- Model of the JavaScript `String.prototype.startsWith`. -/
def jsStartsWith (s pre : String) : Bool :=
  charsStart pre.toList s.toList

/-- Model of `a || b` on an optional environment-variable string: the
variable contributes its value exactly when it is set and non-empty
(both `undefined` and `""` are falsy in JavaScript). -/
def strOr (a : Option String) (b : String) : String :=
  match a with
  | none => b
  | some s => if s = "" then b else s

/-- Ambient execution context read by `getEnvironment`:
`window?` is `none` on a server-side context and `some hostname` on a
client-side context; `vercelEnv` and `nodeEnv` are the raw values of
`process.env.NEXT_PUBLIC_VERCEL_ENV` and `process.env.NODE_ENV`. -/
structure AmbientContext where
  window? : Option String
  vercelEnv : Option String
  nodeEnv : Option String

/-- Embedding of `getEnvironment` (environment.ts lines 7–19).  The
TypeScript `as Environment` casts are erased at runtime, so the function
returns whatever string the environment variables hold; the return type
is therefore `String`. -/
def getEnvironment (ctx : AmbientContext) : String :=
  match ctx.window? with
  | none => strOr ctx.vercelEnv (strOr ctx.nodeEnv "development")
  | some host => if host = "localhost" then "development" else "production"

/-- The four log levels of the logger. -/
inductive LogLevel where
  | info | warn | error | debug
  deriving DecidableEq

/-- The `LogDetails` shape: a flat JavaScript record of detail key/value pairs. -/
abbrev LogDetails := List (String × JsValue)

/-- Embedding of the `SupabaseLog` record shape (environment.ts lines
40–48).  Optional fields are `Option`s; `timestamp` is milliseconds
since epoch. -/
structure SupabaseLog where
  timestamp : ℕ
  level : LogLevel
  operation : String
  details : Option LogDetails := none
  duration : Option ℚ := none
  error : Option JsValue := none
  environment : String

/-- Evaluation of a JavaScript object-literal `{...base, ...extra}`
where `extra`'s keys override `base`'s but keep `base`'s positions. -/
def objLiteralMerge (base extra : List (String × JsValue)) :
    List (String × JsValue) :=
  base.map (fun kv =>
    match extra.find? (fun kv2 => kv2.1 == kv.1) with
    | some kv2 => (kv.1, kv2.2)
    | none => kv)
  ++ extra.filter (fun kv => !(base.any (fun kv2 => kv2.1 == kv.1)))

/-- Rendering a modelled number the way `String(n)` would.  The exact
JavaScript float formatting is abstracted by the `ℚ` `toString`; no
claim inspects this text. -/
def jsNumToString (q : ℚ) : String := toString q

/-- Embedding of `SupabaseLogger.formatError` (environment.ts lines
254–270): an `Error` instance yields `{message, stack, ...ownEnumerable}`;
any other non-null object (arrays included, since `typeof [] === "object"`)
passes through as-is; anything else is coerced with `String(...)` and
wrapped as `{message}`. -/
def formatError : JsValue → JsValue
  | .errObj m s props =>
      .obj (objLiteralMerge
        [("message", .str m),
         ("stack", match s with | some t => .str t | none => .undefV)]
        props)
  | .obj f => .obj f
  | .arr a => .arr a
  | .str s => .obj [("message", .str s)]
  | .num q => .obj [("message", .str (jsNumToString q))]
  | .bool b => .obj [("message", .str (if b then "true" else "false"))]
  | .undefV => .obj [("message", .str "undefined")]
  | .nullV => .obj [("message", .str "null")]

/-- The capacity bound `MAX_LOGS` (environment.ts line 54). -/
def MAX_LOGS : ℕ := 1000

/-- The in-memory store: a list of records, newest at the front. -/
abbrev LoggerStore := List SupabaseLog

/-- The argument tuple of one call to `SupabaseLogger.log`; `now` is the
value `Date.now()` returns during the call. -/
structure LogCall where
  now : ℕ
  level : LogLevel
  operation : String
  details : Option LogDetails := none
  error : Option JsValue := none
  duration : Option ℚ := none

/-- The record object built at the top of `SupabaseLogger.log`
(environment.ts lines 159–167).  `details || undefined` is the identity
on an object-or-undefined argument (objects are always truthy);
`error ? formatError(error) : undefined` drops falsy errors;
`duration || undefined` coerces a `0` duration to `undefined`;
`environment` is `process.env.NODE_ENV || "development"`. -/
def builtRecord (nodeEnv : Option String) (c : LogCall) : SupabaseLog :=
  { timestamp := c.now
    level := c.level
    operation := c.operation
    details := c.details
    error := match c.error with
      | some e => if jsTruthy e then some (formatError e) else none
      | none => none
    duration := match c.duration with
      | some d => if d = 0 then none else some d
      | none => none
    environment := strOr nodeEnv "development" }

/-- The store mutation of `SupabaseLogger.log` (environment.ts lines
171–174): `unshift` the record, then `pop` the back element when the
length exceeds `MAX_LOGS`. -/
def pushLog (store : LoggerStore) (r : SupabaseLog) : LoggerStore :=
  let st1 := r :: store
  if st1.length > MAX_LOGS then st1.dropLast else st1

/-- Observable outcome of one `log` call: the new store, and the record
handed to `console.log(this.formatLog(log))` when an emission happens
(`none` when the development gate skips both append and emission; the
rendered text itself is not modelled, no claim inspects it). -/
structure LogOutcome where
  store : LoggerStore
  emission : Option SupabaseLog
  deriving Inhabited

/-- Embedding of `SupabaseLogger.log` (environment.ts lines 152–177):
the record is built, and only when `process.env.NODE_ENV === "development"`
it is pushed into the ring buffer and emitted to the console. -/
def logRun (nodeEnv : Option String) (c : LogCall) (store : LoggerStore) :
    LogOutcome :=
  if nodeEnv = some "development" then
    ⟨pushLog store (builtRecord nodeEnv c), some (builtRecord nodeEnv c)⟩
  else
    ⟨store, none⟩

/-- A sequence of `log` calls executed in the development environment,
threading the store. -/
def logMany (calls : List LogCall) (store : LoggerStore) : LoggerStore :=
  calls.foldl (fun st c => (logRun (some "development") c st).store) store

/-- A detail key counts as sensitive when its name contains one of the
five case-sensitive substrings (environment.ts lines 127–131). -/
def sensitiveKey (k : String) : Bool :=
  jsIncludes k "password" || jsIncludes k "token" || jsIncludes k "key" ||
    jsIncludes k "secret" || jsIncludes k "session"

/-- The loop body of `SupabaseLogger.sanitizeLogDetails`
(environment.ts lines 115–140): an entry whose key starts with `_` or
whose value is `undefined`/`null` is skipped; a surviving sensitive
key's value is replaced by `"[REDACTED]"` exactly when
`process.env.NODE_ENV === "production"`; every other entry passes
through. -/
def sanitizeEntry (nodeEnv : Option String) :
    String × JsValue → Option (String × JsValue)
  | (_, .undefV) => none
  | (_, .nullV) => none
  | (k, v) =>
    if jsStartsWith k "_" then none
    else if nodeEnv = some "production" ∧ sensitiveKey k then
      some (k, .str "[REDACTED]")
    else some (k, v)

/-- The whole sanitizer: the loop of lines 121–138 over all entries. -/
def sanitizeLogDetails (nodeEnv : Option String) (details : LogDetails) :
    LogDetails :=
  details.filterMap (sanitizeEntry nodeEnv)

/-- Embedding of `SupabaseLogger.getLogs` (environment.ts lines
180–186): optionally filter to one level (the level strings are all
truthy, so a supplied filter is always applied), then `slice(0, limit)`
with the declared default `limit = 100`.  Modelled state-passing so the
absence of store mutation is expressible. -/
def getLogsRun (store : LoggerStore) (limit? : Option ℕ)
    (level? : Option LogLevel) : List SupabaseLog × LoggerStore :=
  let limit := limit?.getD 100
  let filtered : LoggerStore := match level? with
    | some l => store.filter (fun r => decide (r.level = l))
    | none => store
  (filtered.take limit, store)

/-- Property read `v[k]` on a modelled value: object field lookup, the
`message`/`stack` accessors of an `Error`, `undefined` elsewhere. -/
def jsGetProp (v : JsValue) (k : String) : JsValue :=
  match v with
  | .obj fs =>
      match fs.find? (fun kv => kv.1 == k) with
      | some kv => kv.2
      | none => .undefV
  | .errObj m s props =>
      if k = "message" then .str m
      else if k = "stack" then (match s with | some t => .str t | none => .undefV)
      else match props.find? (fun kv => kv.1 == k) with
        | some kv => kv.2
        | none => .undefV
  | _ => .undefV

/-- The optional-chained read `result?.data` used by the wrapper
(environment.ts line 227). -/
def jsGetData : JsValue → JsValue
  | .undefV => .undefV
  | .nullV => .undefV
  | v => jsGetProp v "data"

/-- An underlying client, seen as its callable methods: each property
name yields a function from the argument list to either a resolved
value or a thrown/rejected error. -/
structure Client where
  methods : String → (List JsValue → Except JsValue JsValue)

/-- The proxied `apply` trap of `wrapClient` (environment.ts lines
217–244) at one invocation: run the original method with the same
arguments; on success log an info record with `{arguments, result:
result?.data}` and the elapsed time, returning the result untouched; on
failure log an error record with `{arguments}`, the caught error and
the elapsed time, then re-throw the very same error.  `now` is the
`Date.now()` at logging time and `elapsed` is
`performance.now() - startTime`. -/
def invokeWrapped (nodeEnv : Option String)
    (method : List JsValue → Except JsValue JsValue) (prop : String)
    (args : List JsValue) (now : ℕ) (elapsed : ℚ) (store : LoggerStore) :
    Except JsValue JsValue × LogOutcome :=
  match method args with
  | .ok r =>
      (.ok r,
        logRun nodeEnv
          { now := now, level := .info, operation := prop
            details := some [("arguments", .arr args), ("result", jsGetData r)]
            error := none, duration := some elapsed } store)
  | .error e =>
      (.error e,
        logRun nodeEnv
          { now := now, level := .error, operation := prop
            details := some [("arguments", .arr args)]
            error := some e, duration := some elapsed } store)

/-- The effectful view of a (possibly wrapped) client: invoking a method
name on arguments, given the ambient clock values and the current store,
yields the call's outcome and the log outcome. -/
structure EffClient where
  invoke : String → List JsValue → ℕ → ℚ → LoggerStore →
    Except JsValue JsValue × LogOutcome

/-- The uninstrumented client's effectful view: the call's own outcome,
with the store untouched and nothing emitted. -/
def clientEff (c : Client) : EffClient :=
  ⟨fun prop args _ _ st => (c.methods prop args, ⟨st, none⟩)⟩

/-- Embedding of `SupabaseLogger.wrapClient` (environment.ts lines
206–251): when `process.env.NODE_ENV !== "development"` the input client
is returned unchanged (here: its plain effectful view); otherwise every
method invocation goes through the timing-and-logging proxy trap. -/
def wrapClient (nodeEnv : Option String) (c : Client) : EffClient :=
  if nodeEnv = some "development" then
    ⟨fun prop args now elapsed st =>
      invokeWrapped nodeEnv (c.methods prop) prop args now elapsed st⟩
  else
    clientEff c

/-- The first argument of the tapped `window.fetch`
(instrumentation.ts lines 56–65): a URL string, a `URL` object, or a
`Request`; `urlOf` is the tap's own url extraction. -/
inductive FetchInput where
  | str (s : String)
  | url (href : String)
  | request (requestUrl : String)

/-- The tap's url extraction (instrumentation.ts lines 60–65). -/
def urlOf : FetchInput → String
  | .str s => s
  | .url href => href
  | .request u => u

/-- The slice of `RequestInit` the tap reads: `init?.method`. -/
structure RequestInitM where
  method : Option String := none

/-- The slice of a `Response` the tap observes: success flag, status,
status text, the `content-type` header, and the JSON body obtained from
the cloned response when it parses (`none` models both a missing body
and a parse failure, which the tap swallows). -/
structure TapResponse where
  ok : Bool
  status : ℕ
  statusText : String
  contentType : Option String := none
  jsonBody : Option JsValue := none

/-- The regex replace
`url.replace(/https:\/\/.*\.supabase\.co/, "[SUPABASE_URL]")`: the
leftmost match starts at the first `https://` that is followed
(greedily) by a later `.supabase.co`; the match extends to the end of
the last such suffix occurrence. -/
def redactSupabaseUrl (url : String) : String :=
  let s := url.toList
  let pre := "https://".toList
  let suf := ".supabase.co".toList
  let ks := (List.range (s.length + 1)).filter
    (fun k => charsStart suf (s.drop k))
  let starts := (List.range (s.length + 1)).filter
    (fun i => charsStart pre (s.drop i) && ks.any (fun k => i + 8 ≤ k))
  match starts.head? with
  | none => url
  | some i =>
    match (ks.filter (fun k => i + 8 ≤ k)).getLast? with
    | none => url
    | some k => ⟨s.take i ++ "[SUPABASE_URL]".toList ++ s.drop (k + 12)⟩

/-- The body `sendToServer` posts for one captured event
(instrumentation.ts lines 36–52): the event enriched with a capture
timestamp and `environment: "client"`, wrapped in a one-element array. -/
def sendToServerBody (event : List (String × JsValue)) (now : ℕ) : JsValue :=
  .arr [.obj (objLiteralMerge event
    [("timestamp", .num (now : ℚ)), ("environment", .str "client")])]

/-- Embedding of the tapped `window.fetch` (instrumentation.ts lines
56–145).  `origFetch` is the saved original primitive, modelled as a
function from the same inputs to either a response or a thrown network
error.  The second component collects the bodies forwarded to
`/api/traces`; the non-matching branch performs the single `includes`
check and delegates unchanged. -/
def tappedFetch (origFetch : FetchInput → Option RequestInitM →
      Except JsValue TapResponse)
    (input : FetchInput) (init : Option RequestInitM) (now : ℕ)
    (elapsed : ℚ) : Except JsValue TapResponse × List JsValue :=
  let url := urlOf input
  if jsIncludes url "supabase.co" then
    let method := strOr (init.bind (fun i => i.method)) "GET"
    match origFetch input init with
    | .ok resp =>
      let isJson := match resp.contentType with
        | some ct => jsIncludes ct "application/json"
        | none => false
      let responseData := if isJson then resp.jsonBody.getD .undefV else .undefV
      if resp.ok then (.ok resp, [])
      else
        (.ok resp,
          [sendToServerBody
            [("name", .str "Supabase.error"), ("level", .str "error"),
             ("duration", .num elapsed),
             ("attributes", .obj
               [("url", .str (redactSupabaseUrl url)),
                ("method", .str method),
                ("status", .num (resp.status : ℚ)),
                ("statusText", .str resp.statusText),
                ("error", responseData)])] now])
    | .error e =>
      (.error e,
        [sendToServerBody
          [("name", .str "Supabase.error"), ("level", .str "error"),
           ("attributes", .obj
             [("url", .str (redactSupabaseUrl url)),
              ("method", .str method),
              ("error", jsGetProp e "message"),
              ("stack", jsGetProp e "stack")])] now])
  else
    (origFetch input init, [])

/-- Observable outcome of one `POST /api/traces` request: HTTP status,
JSON response body, the trace events emitted through
`console.error(formatSupabaseError(trace))` (identified by the event
value; the rendered text needs calendar-time formatting and no claim
inspects it), and whether the catch-block `console.error("Error
processing traces:", ...)` notice fired. -/
structure TracesResult where
  status : ℕ
  body : JsValue
  diagEmissions : List JsValue
  processingErrorLogged : Bool

/-- The 200 response body `{ok: true}` of the traces route. -/
def tracesOkBody : JsValue := .obj [("ok", .bool true)]

/-- The 400 response body `{error: "Invalid trace data"}`. -/
def tracesErrBody : JsValue := .obj [("error", .str "Invalid trace data")]

/-- The `traces.forEach` loop of the route (route.ts lines 58–63),
with JavaScript exception semantics: each event's `name` is read and
`startsWith("Supabase.")` is applied; a non-string `name` raises a
`TypeError`, which aborts the loop — emissions already made stand, and
control transfers to the catch block (status 400). -/
def processEvents : List JsValue → List JsValue → TracesResult
  | [], acc => ⟨200, tracesOkBody, acc.reverse, false⟩
  | e :: rest, acc =>
    match jsGetProp e "name" with
    | .str n =>
      if jsStartsWith n "Supabase." then processEvents rest (e :: acc)
      else processEvents rest acc
    | _ => ⟨400, tracesErrBody, acc.reverse, true⟩

/-- Embedding of the traces route `POST` handler (route.ts lines
54–70).  The argument is the result of `request.json()`: `none` when
the body is not valid JSON (the await throws), otherwise the parsed
value.  A parsed non-array value has no `forEach`, so the loop line
itself throws and the catch block answers 400. -/
def tracesPOST (body? : Option JsValue) : TracesResult :=
  match body? with
  | none => ⟨400, tracesErrBody, [], true⟩
  | some v =>
    match v with
    | .arr events => processEvents events []
    | _ => ⟨400, tracesErrBody, [], true⟩

/-- The route's emission predicate: `console.error` fires for exactly
the events whose `name` starts with `"Supabase."` (route.ts line 59);
the event's `level` is not consulted. -/
def isSupabaseNamed (e : JsValue) : Bool :=
  match jsGetProp e "name" with
  | .str n => jsStartsWith n "Supabase."
  | _ => false

/-- Concrete 1001-call sequence used to witness the ring-buffer claim. -/
def ringBufferCalls : List LogCall :=
  (List.range (MAX_LOGS + 1)).map
    (fun i => { now := i, level := .info, operation := "op" })

/-- A trivial concrete client used in witnesses. -/
def stubClient : Client := ⟨fun _ _ => .ok .undefV⟩

/-- A concrete original-fetch stand-in used in witnesses. -/
def stubFetch : FetchInput → Option RequestInitM → Except JsValue TapResponse :=
  fun _ _ => .ok ⟨true, 200, "OK", none, none⟩

/-- A Supabase-named trace event whose level is `info`, not `error`. -/
def infoSupabaseEvent : JsValue :=
  .obj [("name", .str "Supabase.query"), ("level", .str "info")]

/-- A Supabase-named trace event whose level is `error`. -/
def errorSupabaseEvent : JsValue :=
  .obj [("name", .str "Supabase.error"), ("level", .str "error"),
    ("attributes", .obj [("status", .num 500)])]

/-! ## Helper lemmas -/

theorem pushLog_eq_take (store : LoggerStore) (r : SupabaseLog)
    (h : store.length ≤ MAX_LOGS) :
    pushLog store r = (r :: store).take MAX_LOGS := by
  unfold pushLog
  by_cases hlen : (r :: store).length > MAX_LOGS
  · rw [if_pos hlen, List.dropLast_eq_take]
    have : (r :: store).length = MAX_LOGS + 1 := by
      simp only [List.length_cons] at hlen ⊢; omega
    rw [this]
    simp
  · rw [if_neg hlen, List.take_of_length_le (by omega)]

theorem take_append_take {α : Type} (a b : List α) (n : ℕ) :
    (a ++ b.take n).take n = (a ++ b).take n := by
  rw [List.take_append_eq_append_take, List.take_append_eq_append_take,
    List.take_take, Nat.min_eq_left (Nat.sub_le _ _)]

theorem foldl_pushLog (recs : List SupabaseLog) (store : LoggerStore)
    (h : store.length ≤ MAX_LOGS) :
    recs.foldl pushLog store = (recs.reverse ++ store).take MAX_LOGS := by
  induction recs generalizing store with
  | nil => simpa using (List.take_of_length_le h).symm
  | cons r rs ih =>
    have hlen : (pushLog store r).length ≤ MAX_LOGS := by
      rw [pushLog_eq_take _ _ h, List.length_take]
      exact Nat.min_le_left _ _
    rw [List.foldl_cons, ih _ hlen, pushLog_eq_take _ _ h, take_append_take]
    simp [List.append_assoc]

theorem pushLog_eq_cons (store : LoggerStore) (r : SupabaseLog)
    (h : store.length < MAX_LOGS) : pushLog store r = r :: store := by
  unfold pushLog
  rw [if_neg]
  simp only [List.length_cons]
  omega

theorem head?_pushLog (st : LoggerStore) (r : SupabaseLog) :
    (pushLog st r).head? = some r := by
  unfold pushLog
  by_cases h : (r :: st).length > MAX_LOGS
  · rw [if_pos h]
    cases st with
    | nil => simp [MAX_LOGS] at h
    | cons a t => rw [List.dropLast_cons₂]; rfl
  · rw [if_neg h]
    rfl

theorem logRun_dev (c : LogCall) (store : LoggerStore) :
    logRun (some "development") c store =
      ⟨pushLog store (builtRecord (some "development") c),
        some (builtRecord (some "development") c)⟩ := by
  unfold logRun
  rw [if_pos rfl]

theorem sanitizeEntry_some_shape {nodeEnv : Option String} {a : String}
    {b : JsValue} {k' : String} {v' : JsValue}
    (hfa : sanitizeEntry nodeEnv (a, b) = some (k', v')) :
    jsStartsWith k' "_" = false ∧ v' ≠ .undefV ∧ v' ≠ .nullV := by
  cases b <;> simp only [sanitizeEntry] at hfa <;>
    try exact Option.noConfusion hfa
  all_goals
    split_ifs at hfa with h1 h2 <;> try exact Option.noConfusion hfa
  all_goals
    rw [Option.some.injEq, Prod.mk.injEq] at hfa
  all_goals
    obtain ⟨rfl, rfl⟩ := hfa
    refine ⟨by simpa using h1, by simp, by simp⟩

theorem processEvents_all_named (events : List JsValue) (acc : List JsValue)
    (h : ∀ e ∈ events, ∃ n, jsGetProp e "name" = .str n) :
    processEvents events acc =
      ⟨200, tracesOkBody, acc.reverse ++ events.filter isSupabaseNamed,
        false⟩ := by
  induction events generalizing acc with
  | nil => simp [processEvents]
  | cons e rest ih =>
    obtain ⟨n, hn⟩ := h e (by simp)
    have hrest : ∀ x ∈ rest, ∃ m, jsGetProp x "name" = .str m :=
      fun x hx => h x (by simp [hx])
    rw [processEvents]
    rw [hn]
    dsimp only
    by_cases hs : jsStartsWith n "Supabase." = true
    · rw [if_pos hs, ih _ hrest]
      have hfil : isSupabaseNamed e = true := by
        simp [isSupabaseNamed, hn, hs]
      simp [List.filter_cons, hfil]
    · rw [if_neg hs, ih _ hrest]
      have hfil : isSupabaseNamed e = false := by
        simp [isSupabaseNamed, hn, hs]
      simp [List.filter_cons, hfil]

/-! ## Claim theorems -/

/-- Claim C1: For every sequence of `N` calls to `log` in the development
environment with `N > MAX_LOGS` (1000), starting from the empty store,
the store length stabilizes at exactly `MAX_LOGS` and the retained
records are exactly the last `MAX_LOGS` records appended, newest at the
front. -/
theorem ring_buffer_retains_last_max_logs (calls : List LogCall)
    (h : MAX_LOGS < calls.length) :
    (logMany calls []).length = MAX_LOGS ∧
    logMany calls [] =
      ((calls.map (builtRecord (some "development"))).reverse).take MAX_LOGS := by
  have key : logMany calls [] =
      ((calls.map (builtRecord (some "development"))).reverse).take MAX_LOGS := by
    unfold logMany
    have step : (calls.foldl
        (fun st c => (logRun (some "development") c st).store) []) =
        (calls.map (builtRecord (some "development"))).foldl pushLog [] := by
      rw [List.foldl_map]
      simp [logRun]
    rw [step, foldl_pushLog _ _ (by simp [MAX_LOGS])]
    simp
  refine ⟨?_, key⟩
  rw [key, List.length_take, List.length_reverse, List.length_map]
  omega

theorem ring_buffer_retains_last_max_logs_witness :
    MAX_LOGS < ringBufferCalls.length ∧
    ((logMany ringBufferCalls []).length = MAX_LOGS ∧
      logMany ringBufferCalls [] =
        ((ringBufferCalls.map (builtRecord (some "development"))).reverse).take
          MAX_LOGS) :=
  ⟨by simp [ringBufferCalls],
    ring_buffer_retains_last_max_logs _ (by simp [ringBufferCalls])⟩

/-- Claim C8: For every store, limit and level filter, `getLogs` returns
only records of the requested level, as a sublist of the store (the
most-recent-first order is preserved), truncated to the explicit limit
(default 100), and the store itself is left unchanged. -/
theorem getLogs_filters_truncates_nonmutating (store : LoggerStore)
    (limit? : Option ℕ) (lvl : LogLevel) :
    (∀ r ∈ (getLogsRun store limit? (some lvl)).1, r.level = lvl) ∧
    (getLogsRun store limit? (some lvl)).1.Sublist store ∧
    (getLogsRun store limit? (some lvl)).1.length ≤ limit?.getD 100 ∧
    (getLogsRun store limit? (some lvl)).2 = store := by
  refine ⟨?_, ?_, ?_, rfl⟩
  · intro r hr
    have hmem : r ∈ store.filter (fun x => decide (x.level = lvl)) := by
      simp only [getLogsRun] at hr
      exact (List.take_sublist _ _).subset hr
    exact of_decide_eq_true (List.mem_filter.mp hmem).2
  · simp only [getLogsRun]
    exact (List.take_sublist _ _).trans (List.filter_sublist _)
  · simp only [getLogsRun]
    exact List.length_take_le _ _

/-- Claim C10: A `log` call in development with a duration argument of
exactly `0` produces a record with **no** duration field (the falsy
duration is coerced to `undefined`), and the whole call is
indistinguishable from one made with no duration argument at all. -/
theorem log_zero_duration_absent (now : ℕ) (lvl : LogLevel) (op : String)
    (det : Option LogDetails) (err : Option JsValue) (st : LoggerStore) :
    ((logRun (some "development") ⟨now, lvl, op, det, err, some 0⟩ st).store.head?.map
        (fun r => r.duration)) = some none ∧
    logRun (some "development") ⟨now, lvl, op, det, err, some 0⟩ st =
      logRun (some "development") ⟨now, lvl, op, det, err, none⟩ st := by
  constructor
  · simp [logRun, head?_pushLog, builtRecord]
  · simp [logRun, builtRecord]

/-- Claim C4: The sanitizer drops every leading-underscore key and every
`undefined`/`null` value; in production a key containing one of the
sensitive substrings maps to the fixed redaction marker; in development
the original value passes through unchanged. -/
theorem sanitize_drops_and_redacts (nodeEnv : Option String)
    (d : LogDetails) (k : String) (v : JsValue) (hmem : (k, v) ∈ d) :
    (∀ kv ∈ sanitizeLogDetails nodeEnv d,
      jsStartsWith kv.1 "_" = false ∧ kv.2 ≠ .undefV ∧ kv.2 ≠ .nullV) ∧
    (nodeEnv = some "production" → sensitiveKey k = true →
      jsStartsWith k "_" = false → v ≠ .undefV → v ≠ .nullV →
      (k, JsValue.str "[REDACTED]") ∈ sanitizeLogDetails nodeEnv d) ∧
    (nodeEnv = some "development" → jsStartsWith k "_" = false →
      v ≠ .undefV → v ≠ .nullV → (k, v) ∈ sanitizeLogDetails nodeEnv d) := by
  refine ⟨?_, ?_, ?_⟩
  · rintro ⟨k', v'⟩ hkv
    obtain ⟨⟨a, b⟩, _, hfa⟩ := List.mem_filterMap.mp hkv
    exact sanitizeEntry_some_shape hfa
  · intro hprod hsens hus hu hn
    refine List.mem_filterMap.mpr ⟨(k, v), hmem, ?_⟩
    cases v <;> simp_all [sanitizeEntry, hus, hprod, hsens]
  · intro hdev hus hu hn
    refine List.mem_filterMap.mpr ⟨(k, v), hmem, ?_⟩
    cases v <;> simp_all [sanitizeEntry, hus, hdev]

theorem sanitize_drops_and_redacts_witness :
    (("token1", JsValue.str "s") ∈
      ([("_internal", JsValue.str "x"), ("token1", JsValue.str "s"),
        ("note", JsValue.nullV)] : LogDetails)) ∧
    ((some "production" : Option String) = some "production" →
      sensitiveKey "token1" = true → jsStartsWith "token1" "_" = false →
      JsValue.str "s" ≠ .undefV → JsValue.str "s" ≠ .nullV →
      ("token1", JsValue.str "[REDACTED]") ∈
        sanitizeLogDetails (some "production")
          [("_internal", JsValue.str "x"), ("token1", JsValue.str "s"),
            ("note", JsValue.nullV)]) :=
  ⟨by simp,
    (sanitize_drops_and_redacts (some "production") _ "token1" (.str "s")
      (by simp)).2.1⟩

/-- Claim C9, counterexample: The claim restricts `getEnvironment`'s range
to `{development, preview, production}`, but the TypeScript casts are
unchecked: with `NEXT_PUBLIC_VERCEL_ENV = "staging"` on a server-side
context the function returns `"staging"`. -/
theorem getEnvironment_range_cex :
    getEnvironment ⟨none, some "staging", none⟩ = "staging" ∧
    ¬("staging" = "development" ∨ "staging" = "preview" ∨
      "staging" = "production") := by
  exact ⟨rfl, by decide⟩

/-- Claim C9, amended: `getEnvironment` on a client-side context returns
`development` exactly for the hostname `localhost` and `production`
otherwise; on a server-side context it prefers the platform deployment
variable, then the runtime-mode variable (each counting only when set
and non-empty), defaulting to `development` — and its result lies in
`{development, preview, production}` provided the two variables only
ever hold such values (or are empty/unset). -/
theorem getEnvironment_classification (ctx : AmbientContext) :
    (∀ host, ctx.window? = some host →
      getEnvironment ctx =
        if host = "localhost" then "development" else "production") ∧
    (ctx.window? = none → ∀ s, ctx.vercelEnv = some s → s ≠ "" →
      getEnvironment ctx = s) ∧
    (ctx.window? = none → (ctx.vercelEnv = none ∨ ctx.vercelEnv = some "") →
      ∀ s, ctx.nodeEnv = some s → s ≠ "" → getEnvironment ctx = s) ∧
    (ctx.window? = none → (ctx.vercelEnv = none ∨ ctx.vercelEnv = some "") →
      (ctx.nodeEnv = none ∨ ctx.nodeEnv = some "") →
      getEnvironment ctx = "development") ∧
    (ctx.window? = none →
      (∀ s, ctx.vercelEnv = some s →
        s = "development" ∨ s = "preview" ∨ s = "production" ∨ s = "") →
      (∀ s, ctx.nodeEnv = some s →
        s = "development" ∨ s = "preview" ∨ s = "production" ∨ s = "") →
      (getEnvironment ctx = "development" ∨ getEnvironment ctx = "preview" ∨
        getEnvironment ctx = "production")) := by
  obtain ⟨w, ve, ne⟩ := ctx
  refine ⟨?_, ?_, ?_, ?_, ?_⟩
  · rintro host rfl
    rfl
  · rintro rfl s rfl hs
    simp [getEnvironment, strOr, hs]
  · rintro rfl hve s rfl hs
    rcases hve with rfl | rfl <;> simp [getEnvironment, strOr, hs]
  · rintro rfl hve hne
    rcases hve with rfl | rfl <;> rcases hne with rfl | rfl <;>
      simp [getEnvironment, strOr]
  · rintro rfl hve hne
    cases ve with
    | none =>
      cases ne with
      | none => simp [getEnvironment, strOr]
      | some s =>
        rcases hne s rfl with rfl | rfl | rfl | rfl <;>
          simp [getEnvironment, strOr]
    | some s =>
      cases ne with
      | none =>
        rcases hve s rfl with rfl | rfl | rfl | rfl <;>
          simp [getEnvironment, strOr]
      | some t =>
        rcases hve s rfl with rfl | rfl | rfl | rfl <;>
          rcases hne t rfl with rfl | rfl | rfl | rfl <;>
            simp [getEnvironment, strOr]

theorem getEnvironment_classification_witness :
    ((AmbientContext.mk none (some "preview") (some "production")).window? =
      none) ∧
    ((AmbientContext.mk none (some "preview") (some "production")).vercelEnv =
      some "preview") ∧
    ("preview" ≠ "") ∧
    getEnvironment ⟨none, some "preview", some "production"⟩ = "preview" :=
  ⟨rfl, rfl, by decide,
    (getEnvironment_classification
      ⟨none, some "preview", some "production"⟩).2.1 rfl "preview" rfl
      (by decide)⟩

/-- Claim C5, counterexample: The gate of the logger is
`process.env.NODE_ENV`, not the classified environment: with
`NEXT_PUBLIC_VERCEL_ENV = "production"` and `NODE_ENV = "development"`
on a server-side context, the classified environment is `"production"`
(not development), yet `log` still appends to the store and emits. -/
theorem instrumentation_gate_cex :
    getEnvironment ⟨none, some "production", some "development"⟩ =
      "production" ∧
    (logRun (AmbientContext.mk none (some "production")
        (some "development")).nodeEnv
      ⟨0, .info, "op", none, none, none⟩ []).store ≠ [] ∧
    (logRun (AmbientContext.mk none (some "production")
        (some "development")).nodeEnv
      ⟨0, .info, "op", none, none, none⟩ []).emission ≠ none := by
  refine ⟨rfl, ?_, ?_⟩ <;> simp [logRun, pushLog, MAX_LOGS]

/-- Claim C5, amended: When `process.env.NODE_ENV` is not
`"development"`, the instrumentation layer is inert: `wrapClient`
returns its input client unchanged (its plain uninstrumented view), and
`log` leaves the store unchanged and emits nothing. -/
theorem instrumentation_inert_outside_development (nodeEnv : Option String)
    (c : Client) (h : nodeEnv ≠ some "development") :
    wrapClient nodeEnv c = clientEff c ∧
    (∀ call store, logRun nodeEnv call store = ⟨store, none⟩) := by
  constructor
  · unfold wrapClient
    rw [if_neg h]
  · intro call store
    unfold logRun
    rw [if_neg h]

theorem instrumentation_inert_outside_development_witness :
    ((some "production" : Option String) ≠ some "development") ∧
    (wrapClient (some "production") stubClient = clientEff stubClient ∧
      ∀ call store, logRun (some "production") call store = ⟨store, none⟩) :=
  ⟨by decide,
    instrumentation_inert_outside_development (some "production") stubClient
      (by decide)⟩

/-- Claim C6: For every outgoing call whose URL does not contain
`"supabase.co"`, the tapped fetch delegates unchanged to the original
primitive — the caller gets exactly the original outcome and nothing is
observed or forwarded. -/
theorem tap_delegates_non_supabase
    (origFetch : FetchInput → Option RequestInitM → Except JsValue TapResponse)
    (input : FetchInput) (init : Option RequestInitM) (now : ℕ) (elapsed : ℚ)
    (h : jsIncludes (urlOf input) "supabase.co" = false) :
    tappedFetch origFetch input init now elapsed = (origFetch input init, []) := by
  unfold tappedFetch
  simp [h]

/-- Claim C2, counterexample: The claim asserts the appended info record's
duration is `≥ 0`, but a measured elapsed time of exactly `0` is falsy
and is coerced to `undefined`: the record then carries **no** duration
at all, so no `d ≥ 0` exists. -/
theorem wrapped_success_zero_duration_cex :
    ((invokeWrapped (some "development") (fun _ => .ok (.str "v")) "select"
        [] 7 0 []).2.store.map (fun r => r.duration)) = [none] ∧
    ¬ ∃ d : ℚ,
      ((invokeWrapped (some "development") (fun _ => .ok (.str "v")) "select"
          [] 7 0 []).2.store.map (fun r => r.duration)) = [some d] ∧ 0 ≤ d := by
  have h1 : ((invokeWrapped (some "development") (fun _ => .ok (.str "v"))
      "select" [] 7 0 []).2.store.map (fun r => r.duration)) = [none] := by
    simp [invokeWrapped, logRun, builtRecord, pushLog, MAX_LOGS]
  refine ⟨h1, ?_⟩
  rintro ⟨d, hd, -⟩
  rw [h1] at hd
  simp at hd

/-- Claim C2, amended: In development, invoking a wrapped method that
returns `V` yields exactly `V`, and exactly one info-level record is
appended (at the front) whose operation is the property name and whose
details are `{arguments, result: result?.data}`; its duration equals
the measured elapsed time whenever that is nonzero (and is then
`≥ 0`), and is absent when the elapsed time is exactly `0`. -/
theorem wrapped_success_logs_info
    (method : List JsValue → Except JsValue JsValue) (prop : String)
    (args : List JsValue) (now : ℕ) (elapsed : ℚ) (store : LoggerStore)
    (v : JsValue) (hok : method args = .ok v) (hel : 0 ≤ elapsed)
    (hcap : store.length < MAX_LOGS) :
    ∃ rec : SupabaseLog,
      invokeWrapped (some "development") method prop args now elapsed store =
        (.ok v, ⟨rec :: store, some rec⟩) ∧
      rec.level = .info ∧ rec.operation = prop ∧
      rec.details =
        some [("arguments", .arr args), ("result", jsGetData v)] ∧
      rec.duration = (if elapsed = 0 then none else some elapsed) ∧
      (elapsed ≠ 0 → ∃ d, rec.duration = some d ∧ 0 ≤ d) := by
  refine ⟨builtRecord (some "development")
    { now := now, level := .info, operation := prop
      details := some [("arguments", .arr args), ("result", jsGetData v)]
      error := none, duration := some elapsed }, ?_, rfl, rfl, rfl, ?_, ?_⟩
  · unfold invokeWrapped
    rw [hok]
    dsimp only
    rw [logRun_dev, pushLog_eq_cons _ _ hcap]
  · simp [builtRecord]
  · intro hne
    exact ⟨elapsed, by simp [builtRecord, hne], hel⟩

theorem wrapped_success_logs_info_witness :
    ((fun (_ : List JsValue) =>
        (.ok (.obj [("data", .str "rows")]) : Except JsValue JsValue)) [] =
      .ok (.obj [("data", .str "rows")])) ∧
    ((0 : ℚ) ≤ 3) ∧ ([] : LoggerStore).length < MAX_LOGS ∧
    (∃ rec : SupabaseLog,
      invokeWrapped (some "development")
          (fun _ => .ok (.obj [("data", .str "rows")])) "select" [] 5 3 [] =
        (.ok (.obj [("data", .str "rows")]), ⟨[rec], some rec⟩) ∧
      rec.level = .info ∧ rec.operation = "select" ∧
      rec.details = some [("arguments", .arr []),
        ("result", jsGetData (.obj [("data", .str "rows")]))] ∧
      rec.duration = (if (3 : ℚ) = 0 then none else some 3) ∧
      ((3 : ℚ) ≠ 0 → ∃ d, rec.duration = some d ∧ 0 ≤ d)) :=
  ⟨rfl, by norm_num, by decide,
    wrapped_success_logs_info _ "select" [] 5 3 [] _ rfl (by norm_num)
      (by decide)⟩

/-- Claim C3, counterexample: A method that throws the falsy value `0`
with a measured elapsed time of `0` is re-raised unchanged, but the
appended error record contains **neither** the captured error (a falsy
error is coerced to `undefined`) **nor** a duration — contradicting the
claim that the record carries the captured error and the elapsed
duration. -/
theorem wrapped_failure_falsy_error_cex :
    (invokeWrapped (some "development") (fun _ => .error (.num 0)) "insert"
        [] 3 0 []).1 = .error (.num 0) ∧
    ((invokeWrapped (some "development") (fun _ => .error (.num 0)) "insert"
        [] 3 0 []).2.store.map (fun r => (r.error, r.duration))) =
      [(none, none)] ∧
    ¬ ∃ (le : JsValue) (d : ℚ),
      ((invokeWrapped (some "development") (fun _ => .error (.num 0)) "insert"
          [] 3 0 []).2.store.map (fun r => (r.error, r.duration))) =
        [(some le, some d)] := by
  have h1 : ((invokeWrapped (some "development") (fun _ => .error (.num 0))
      "insert" [] 3 0 []).2.store.map (fun r => (r.error, r.duration))) =
      [(none, none)] := by
    simp [invokeWrapped, logRun, builtRecord, pushLog, MAX_LOGS, jsTruthy]
  refine ⟨rfl, h1, ?_⟩
  rintro ⟨le, d, hd⟩
  rw [h1] at hd
  simp at hd

/-- Claim C3, amended: In development, invoking a wrapped method that
raises `E` re-raises exactly `E`, and exactly one error-level record is
appended whose operation is the property name and whose details are
`{arguments}`; the record carries `formatError E` when `E` is truthy
(and nothing when `E` is falsy), and the elapsed duration when that is
nonzero (absent when it is exactly `0`). -/
theorem wrapped_failure_rethrows_logs_error
    (method : List JsValue → Except JsValue JsValue) (prop : String)
    (args : List JsValue) (now : ℕ) (elapsed : ℚ) (store : LoggerStore)
    (e : JsValue) (herr : method args = .error e)
    (hcap : store.length < MAX_LOGS) :
    ∃ rec : SupabaseLog,
      invokeWrapped (some "development") method prop args now elapsed store =
        (.error e, ⟨rec :: store, some rec⟩) ∧
      rec.level = .error ∧ rec.operation = prop ∧
      rec.details = some [("arguments", .arr args)] ∧
      rec.error = (if jsTruthy e then some (formatError e) else none) ∧
      rec.duration = (if elapsed = 0 then none else some elapsed) := by
  refine ⟨builtRecord (some "development")
    { now := now, level := .error, operation := prop
      details := some [("arguments", .arr args)]
      error := some e, duration := some elapsed }, ?_, rfl, rfl, rfl, rfl, ?_⟩
  · unfold invokeWrapped
    rw [herr]
    dsimp only
    rw [logRun_dev, pushLog_eq_cons _ _ hcap]
  · simp [builtRecord]

theorem wrapped_failure_rethrows_logs_error_witness :
    ((fun (_ : List JsValue) =>
        (.error (.errObj "boom" none []) : Except JsValue JsValue)) [] =
      .error (.errObj "boom" none [])) ∧
    ([] : LoggerStore).length < MAX_LOGS ∧
    (∃ rec : SupabaseLog,
      invokeWrapped (some "development")
          (fun _ => .error (.errObj "boom" none [])) "insert" [] 9 2 [] =
        (.error (.errObj "boom" none []), ⟨[rec], some rec⟩) ∧
      rec.level = .error ∧ rec.operation = "insert" ∧
      rec.details = some [("arguments", .arr [])] ∧
      rec.error = (if jsTruthy (.errObj "boom" none [])
        then some (formatError (.errObj "boom" none [])) else none) ∧
      rec.duration = (if (2 : ℚ) = 0 then none else some 2)) :=
  ⟨rfl, by decide,
    wrapped_failure_rethrows_logs_error _ "insert" [] 9 2 [] _ rfl
      (by decide)⟩

theorem tap_delegates_non_supabase_witness :
    jsIncludes (urlOf (.str "https://example.com/api/things")) "supabase.co" =
      false ∧
    tappedFetch stubFetch (.str "https://example.com/api/things") none 0 0 =
      (stubFetch (.str "https://example.com/api/things") none, []) :=
  ⟨by rfl,
    tap_delegates_non_supabase stubFetch (.str "https://example.com/api/things")
      none 0 0 (by rfl)⟩

/-- Claim C7, counterexample: The route's `console.error` fires for every
event whose name starts with `"Supabase."`, without consulting the
level: a single info-level `Supabase.query` event yields one diagnostic
emission although zero events are Supabase-named errors, contradicting
the claim's "one emission per Supabase-named *error* event". -/
theorem traces_level_ignored_cex :
    (tracesPOST (some (.arr [infoSupabaseEvent]))).status = 200 ∧
    (tracesPOST (some (.arr [infoSupabaseEvent]))).diagEmissions.length = 1 ∧
    ([infoSupabaseEvent].filter (fun e => isSupabaseNamed e &&
        (match jsGetProp e "level" with
          | .str l => l == "error"
          | _ => false))).length = 0 ∧
    (tracesPOST (some (.arr [infoSupabaseEvent]))).diagEmissions.length ≠
      ([infoSupabaseEvent].filter (fun e => isSupabaseNamed e &&
        (match jsGetProp e "level" with
          | .str l => l == "error"
          | _ => false))).length := by
  refine ⟨rfl, rfl, rfl, by decide⟩

/-- Claim C7, amended: A POST with invalid JSON or a non-array JSON body
answers 400 with `{error: "Invalid trace data"}`; a well-formed array
of trace events (each carrying a string `name`) answers 200 with
`{ok: true}` and produces exactly one diagnostic console emission per
event whose name starts with `"Supabase."` — the event's level is not
consulted. -/
theorem traces_post_responses (v : JsValue) :
    tracesPOST none = ⟨400, tracesErrBody, [], true⟩ ∧
    (∀ events, v = .arr events →
      (∀ e ∈ events, ∃ n, jsGetProp e "name" = .str n) →
      tracesPOST (some v) =
        ⟨200, tracesOkBody, events.filter isSupabaseNamed, false⟩) ∧
    ((∀ events, v ≠ .arr events) →
      tracesPOST (some v) = ⟨400, tracesErrBody, [], true⟩) := by
  refine ⟨rfl, ?_, ?_⟩
  · rintro events rfl hnames
    show processEvents events [] = _
    rw [processEvents_all_named events [] hnames]
    simp
  · intro hne
    cases v with
    | arr events => exact absurd rfl (hne events)
    | undefV => rfl
    | nullV => rfl
    | bool b => rfl
    | num q => rfl
    | str s => rfl
    | obj f => rfl
    | errObj m s p => rfl

theorem traces_post_responses_witness :
    ((JsValue.arr [errorSupabaseEvent, infoSupabaseEvent]) =
      .arr [errorSupabaseEvent, infoSupabaseEvent]) ∧
    (∀ e ∈ [errorSupabaseEvent, infoSupabaseEvent],
      ∃ n, jsGetProp e "name" = .str n) ∧
    tracesPOST (some (.arr [errorSupabaseEvent, infoSupabaseEvent])) =
      ⟨200, tracesOkBody,
        [errorSupabaseEvent, infoSupabaseEvent].filter isSupabaseNamed,
        false⟩ :=
  ⟨rfl,
    (by
      intro e he
      simp only [List.mem_cons, List.not_mem_nil, or_false] at he
      rcases he with rfl | rfl
      · exact ⟨"Supabase.error", rfl⟩
      · exact ⟨"Supabase.query", rfl⟩),
    (traces_post_responses (.arr [errorSupabaseEvent, infoSupabaseEvent])).2.1
      [errorSupabaseEvent, infoSupabaseEvent] rfl
      (by
        intro e he
        simp only [List.mem_cons, List.not_mem_nil, or_false] at he
        rcases he with rfl | rfl
        · exact ⟨"Supabase.error", rfl⟩
        · exact ⟨"Supabase.query", rfl⟩)⟩

end NextApp
